import Mathlib

/-!
Shallow embedding of `src/mag/mag.py` (class `MAG`): the pagination loop
`yield_records`, the entity post-processing `process` / `restore_abstract`,
the download driver `download_publications` with its pandas tabular
projection, and `fetch_foses`.

JSON values decoded from the API are modelled by `Json`; Python dicts are
ordered key/value lists (insertion order preserved, as in CPython).
Python exceptions are modelled by `Except String`; the string names the
exception class and is otherwise uninterpreted.
-/

set_option autoImplicit false

inductive Json where
  | null : Json
  | bool : Bool → Json
  | num : Int → Json
  | str : String → Json
  | arr : List Json → Json
  | obj : List (String × Json) → Json
  deriving Repr

/- Python `==` between decoded JSON values, used by list membership and set
deduplication.  Python treats `True == 1` and `False == 0` as equal; dict
comparison in CPython is order-insensitive, but the code only ever compares
scalar field values, so an order-sensitive model is adequate there. -/
mutual
def pyEq : Json → Json → Bool
  | .null, .null => true
  | .bool a, .bool b => a == b
  | .bool a, .num m => (if a then (1 : Int) else 0) == m
  | .num n, .bool b => n == (if b then (1 : Int) else 0)
  | .num a, .num b => a == b
  | .str a, .str b => a == b
  | .arr a, .arr b => pyEqList a b
  | .obj a, .obj b => pyEqObj a b
  | _, _ => false
def pyEqList : List Json → List Json → Bool
  | [], [] => true
  | x :: xs, y :: ys => pyEq x y && pyEqList xs ys
  | _, _ => false
def pyEqObj : List (String × Json) → List (String × Json) → Bool
  | [], [] => true
  | (k, v) :: xs, (k', v') :: ys => k == k' && pyEq v v' && pyEqObj xs ys
  | _, _ => false
end

/- Python `str(...)` of a decoded JSON value (`repr` for nested elements,
as CPython renders list/dict contents with `repr`). -/
mutual
def pyRepr : Json → String
  | .null => "None"
  | .bool true => "True"
  | .bool false => "False"
  | .num n => toString n
  | .str s => "\x27" ++ s ++ "\x27"
  | .arr l => "[" ++ String.intercalate ", " (pyReprList l) ++ "]"
  | .obj kvs => "\x7b" ++ String.intercalate ", " (pyReprObj kvs) ++ "\x7d"
def pyReprList : List Json → List String
  | [] => []
  | x :: xs => pyRepr x :: pyReprList xs
def pyReprObj : List (String × Json) → List String
  | [] => []
  | (k, v) :: xs => ("\x27" ++ k ++ "\x27: " ++ pyRepr v) :: pyReprObj xs
end

def pyStr (j : Json) : String :=
  match j with
  | .str s => s
  | _ => pyRepr j

/-- Python `key in d.keys()` on a dict. -/
def dmem (k : String) (kvs : List (String × Json)) : Bool :=
  kvs.any (fun kv => kv.1 == k)

/-- Python `d[key]` on a dict: value of the first entry with this key. -/
def dget (k : String) (kvs : List (String × Json)) : Option Json :=
  (kvs.find? (fun kv => kv.1 == k)).map (fun kv => kv.2)

/-- Python `d[key] = v`: replace in place if the key exists, else append. -/
def dset (k : String) (v : Json) : List (String × Json) → List (String × Json)
  | [] => [(k, v)]
  | (k', v') :: rest => if k' = k then (k, v) :: rest else (k', v') :: dset k v rest

/-- Python `del d[key]`. -/
def ddel (k : String) (kvs : List (String × Json)) : List (String × Json) :=
  kvs.filter (fun kv => ¬ kv.1 == k)

/-- Python `item[f]`: dict lookup raising `KeyError` when the key is absent
and `TypeError` when `item` is not a dict. -/
def getField (f : String) : Json → Except String Json
  | .obj kvs =>
    match dget f kvs with
    | some v => .ok v
    | none => .error "KeyError"
  | _ => .error "TypeError"

/-- Left-to-right consumption of a Python generator expression: apply `f`
to each element in order, stopping at the first raised exception. -/
def exMapM {α β : Type} (f : α → Except String β) : List α → Except String (List β)
  | [] => .ok []
  | a :: tl => do
    let y ← f a
    let ys ← exMapM f tl
    pure (y :: ys)

/-- Python `";".join(item[f] for item in items)` where each joined element
must be a `str` (`join` raises `TypeError` otherwise). -/
def strJoinField (f : String) (items : List Json) : Except String String := do
  let ss ← exMapM (fun it => do
    let v ← getField f it
    match v with
    | Json.str s => Except.ok s
    | _ => Except.error "TypeError") items
  pure (String.intercalate ";" ss)

/-- Python `";".join(str(item[f]) for item in items)`; `str` accepts any
value, so only the lookups can fail. -/
def pyStrJoinField (f : String) (items : List Json) : Except String String := do
  let ss ← exMapM (fun it => do
    let v ← getField f it
    pure (pyStr v)) items
  pure (String.intercalate ";" ss)

/-- Python `position in positions` for an `int` position: membership in a
list compares with `==` (so a `True`/`False` element equates with 1/0); `x
in d` on a dict checks string keys, never equal to an int; other values
raise `TypeError`. -/
def posMem (p : Int) (positions : Json) : Except String Bool :=
  match positions with
  | .arr l => .ok (l.any (fun x => pyEq x (.num p)))
  | .obj _ => .ok false
  | _ => .error "TypeError"

/-- Inner loop of `restore_abstract`: one pass over `words.items()` at a
fixed position, collecting every word whose position set claims it, in
dict iteration order. -/
def scanWords (p : Int) : List (String × Json) → Except String (List String)
  | [] => .ok []
  | (w, ps) :: rest => do
    let b ← posMem p ps
    let tail ← scanWords p rest
    pure (if b then w :: tail else tail)

/-- Outer loop of `restore_abstract` over the positions of
`range(0, total_words)`.  `words.items()` is only consulted when the loop
body runs, hence the dict check sits inside the recursion, as in Python. -/
def restoreLoop (wordsJ : Json) : List Int → Except String (List String)
  | [] => .ok []
  | p :: rest => do
    let words ←
      match wordsJ with
      | Json.obj kvs => Except.ok kvs
      | _ => Except.error "AttributeError"
    let here ← scanWords p words
    let later ← restoreLoop wordsJ rest
    pure (here ++ later)

/-- Source `MAG.restore_abstract` (mag.py lines 151-162): read
`abstract["InvertedIndex"]` and `abstract["IndexLength"]`, walk positions
`0 .. IndexLength-1` appending every word claiming the position, join with
single spaces.  `range` needs an `int` bound (a non-`int` raises
`TypeError`); a negative bound yields an empty range. -/
def restore_abstract (a : Json) : Except String String := do
  let wordsJ ← getField "InvertedIndex" a
  let totalJ ← getField "IndexLength" a
  let total ←
    match totalJ with
    | Json.num n => Except.ok n
    | _ => Except.error "TypeError"
  let text ← restoreLoop wordsJ ((List.range total.toNat).map Int.ofNat)
  pure (String.intercalate " " text)

/- The four conditional flattening blocks of `MAG.process` (mag.py lines
169-186), each acting on the copied entity's key/value list. -/

/-- The `if "IA" in entity.keys()` block: set `RA` to the restored abstract,
delete `IA`. -/
def stepIA (kvs : List (String × Json)) : Except String (List (String × Json)) :=
  if dmem "IA" kvs then do
    let ia := (dget "IA" kvs).getD .null
    let ra ← restore_abstract ia
    pure (ddel "IA" (dset "RA" (.str ra) kvs))
  else pure kvs

/-- The `if "AA" in entity.keys()` block: semicolon-join author names into
`DAuN`, stringified author ids into `AuId`, delete `AA`.  Iterating a
non-list value either fails immediately or fails on its first element, so
a non-list `AA` is modelled as `TypeError`. -/
def stepAA (kvs : List (String × Json)) : Except String (List (String × Json)) :=
  if dmem "AA" kvs then do
    let aa := (dget "AA" kvs).getD .null
    let items ←
      match aa with
      | Json.arr l => Except.ok l
      | _ => Except.error "TypeError"
    let dn ← strJoinField "DAuN" items
    let ai ← pyStrJoinField "AuId" items
    pure (ddel "AA" (dset "AuId" (.str ai) (dset "DAuN" (.str dn) kvs)))
  else pure kvs

/-- The `if "F" in entity.keys()` block: semicolon-join field-of-study names
into `FN`, delete `F`. -/
def stepF (kvs : List (String × Json)) : Except String (List (String × Json)) :=
  if dmem "F" kvs then do
    let fv := (dget "F" kvs).getD .null
    let items ←
      match fv with
      | Json.arr l => Except.ok l
      | _ => Except.error "TypeError"
    let fn ← strJoinField "FN" items
    pure (ddel "F" (dset "FN" (.str fn) kvs))
  else pure kvs

/-- The three-way `isinstance` dispatch of the journal block (mag.py
lines 180-185): the journal object's `"JN"` value when `J` is a dict, the
semicolon-joined names when `J` is a list, and the value itself
otherwise. -/
def jnValue : Json → Except String Json
  | .obj jkvs =>
    match dget "JN" jkvs with
    | some v => .ok v
    | none => .error "KeyError"
  | .arr l => do
    let s ← strJoinField "JN" l
    pure (Json.str s)
  | other => .ok other

/-- The `if "J" in entity.keys()` block: compute `JN` by the `isinstance`
dispatch; the `del entity["J"]` at mag.py line 186 sits after the
`if/elif/else` and runs in all three cases. -/
def stepJ (kvs : List (String × Json)) : Except String (List (String × Json)) :=
  if dmem "J" kvs then do
    let jn ← jnValue ((dget "J" kvs).getD .null)
    pure (ddel "J" (dset "JN" jn kvs))
  else pure kvs

/-- One loop body of `MAG.process` on `item`: `entity = item.copy()` (a
shallow copy, after which only top-level keys of the copy are written or
deleted), then the four conditional blocks.  A non-dict item fails at
`item.copy()` / `entity.keys()`. -/
def processEntity (item : Json) : Except String Json :=
  match item with
  | .obj e0 => do
    let e1 ← stepIA e0
    let e2 ← stepAA e1
    let e3 ← stepF e2
    let e4 ← stepJ e3
    pure (.obj e4)
  | _ => .error "TypeError"

/-- One `{"raw": item, "processed": entity}` pair yielded by `MAG.process`. -/
structure Record where
  raw : Json
  processed : Json
  deriving Repr

/-- The generator run of `MAG.process` over one entity batch: the records
yielded before the first processing exception, and that exception if one
occurred. -/
def processRun : List Json → List Record × Option String
  | [] => ([], none)
  | item :: rest =>
    match processEntity item with
    | .error e => ([], some e)
    | .ok proc =>
      let (recs, err) := processRun rest
      ({ raw := item, processed := proc } :: recs, err)

/-- The request parameter dict built by `MAG.__init__` and mutated by the
loops (`expr`, `offset`, `count`, `attributes`, `model`,
`subscription-key`). -/
structure Params where
  expr : String
  offset : Int
  count : Int
  attributes : String
  model : String
  subscriptionKey : String
  deriving Repr, DecidableEq

/-- Source `MAG.ENTITIES`, the column rename map (mag.py lines 51-70). -/
def ENTITIES : List (String × String) :=
  [("Id", "mag_ID"),
   ("DN", "original_paper_title"),
   ("Ti", "normalized_title"),
   ("W", "normalized_words_in_title"),
   ("AW", "normalized_words_in_abstract"),
   ("RA", "restored_abstract"),
   ("IA", "inverted_abstract"),
   ("AA", "authors"),
   ("AuId", "author_id"),
   ("DAuN", "author_name"),
   ("Y", "year_published"),
   ("D", "isodate_published"),
   ("DOI", "DOI"),
   ("J", "journals"),
   ("JN", "journal_name"),
   ("PB", "publisher"),
   ("FId", "field_of_study_id"),
   ("FN", "field_of_study")]

/-- Python `data["entities"]` on the decoded response body. -/
def extractEntities (data : Json) : Except String Json :=
  match data with
  | .obj kvs =>
    match dget "entities" kvs with
    | some v => .ok v
    | none => .error "KeyError"
  | _ => .error "TypeError"

/-- Outcome of one iteration of the `while True` loop in
`MAG.yield_records`: either the loop halts (clean break on an empty batch,
or an exception after yielding some records of the page), or it continues
to the next page having yielded the page's records. -/
inductive StepRes where
  | halt : List Record → Option String → StepRes
  | cont : List Record → StepRes
  deriving Repr

/-- One iteration of `MAG.yield_records` (mag.py lines 193-201): fetch,
stop if `data["entities"] == []`, else yield `process(data["entities"])`.
The external `fetch` is modelled as an oracle indexed by the call number
(covering stateful test stubs) and the request parameters; `.error`
models any transport or JSON-decode exception escaping
`requests.get(...).json()`.  A non-list `entities` value fails inside
`process` on its first element (modelled as the `TypeError` Python raises
when iterating/processing it). -/
def stepFetch (fetch : Nat → Params → Except String Json) (idx : Nat) (params : Params) : StepRes :=
  match fetch idx params with
  | .error e => .halt [] (some e)
  | .ok data =>
    match extractEntities data with
    | .error e => .halt [] (some e)
    | .ok (.arr []) => .halt [] none
    | .ok (.arr ents) =>
      match processRun ents with
      | (recs, some e) => .halt recs (some e)
      | (recs, none) => .cont recs
    | .ok _ => .halt [] (some "TypeError")

/-- How a bounded run of the pagination loop ended: clean break on an
empty batch, a propagated exception, or fuel exhaustion (a model artifact:
the Python loop would still be running). -/
inductive RunEnd where
  | done : RunEnd
  | errored : String → RunEnd
  | fuelOut : RunEnd
  deriving Repr, DecidableEq

/-- Observable trace of one `yield_records` run: every record yielded, the
parameter dict of every fetch call performed, and how the run ended. -/
structure RunResult where
  records : List Record
  calls : List Params
  ending : RunEnd
  deriving Repr

/-- The `while True` loop of `MAG.yield_records`, fuel-bounded.  After a
page is processed the shared params dict gets
`params["offset"] += params["count"]` (mag.py line 198); the `sleep(3.1)`
pacing delay and the `downloaded` log counter have no observable effect
in this model. -/
def yieldRecordsAux (fetch : Nat → Params → Except String Json) :
    Params → Nat → Nat → RunResult
  | _, _, 0 => ⟨[], [], .fuelOut⟩
  | params, idx, fuel + 1 =>
    match stepFetch fetch idx params with
    | .halt recs none => ⟨recs, [params], .done⟩
    | .halt recs (some e) => ⟨recs, [params], .errored e⟩
    | .cont recs =>
      let next := yieldRecordsAux fetch
        { params with offset := params.offset + params.count } (idx + 1) fuel
      ⟨recs ++ next.records, params :: next.calls, next.ending⟩

/-- The pandas DataFrame of `download_publications`, reduced to the
observables the code touches: the ordered column labels and the row
dicts.  Cells are recovered by key lookup in a row; keys a row lacks are
`NaN` cells. -/
structure Table where
  columns : List String
  rows : List Json
  deriving Repr

/-- Column labels of `pd.DataFrame(list_of_dicts)`: the union of the row
dicts' keys in order of first appearance. -/
def dfColumns (rows : List Json) : List String :=
  rows.foldl
    (fun acc row =>
      match row with
      | Json.obj kvs =>
        kvs.foldl (fun acc kv => if acc.contains kv.1 then acc else acc ++ [kv.1]) acc
      | _ => acc)
    []

/-- Pandas `DataFrame.drop(labels, axis=1)`: raises `KeyError` when any label is
not a column; otherwise removes those columns. -/
def dfDrop (labels : List String) (t : Table) : Except String Table :=
  if labels.all (fun l => t.columns.contains l) then
    .ok ⟨t.columns.filter (fun c => ¬ labels.contains c), t.rows⟩
  else .error "KeyError"

/-- Pandas `DataFrame.rename(columns=m)`: rename each column through the map,
leaving labels the map does not mention unchanged. -/
def lookupRename (m : List (String × String)) (c : String) : String :=
  match m.find? (fun p => p.1 == c) with
  | some p => p.2
  | none => c

def dfRename (m : List (String × String)) (t : Table) : Table :=
  ⟨t.columns.map (lookupRename m), t.rows⟩

/-- The tabular projection of `download_publications` (mag.py lines
100-104): `pd.DataFrame(processed).drop(["prob", "logprob"],
axis=1).rename(columns=MAG.ENTITIES)`. -/
def buildTable (rows : List Json) : Except String Table := do
  let t ← dfDrop ["prob", "logprob"] ⟨dfColumns rows, rows⟩
  pure (dfRename ENTITIES t)

/-- The attribute state of a `MAG` instance (`self.params`,
`self.json_data`, `self.json_foses`, `self.table_data`). -/
structure MAGState where
  params : Params
  json_data : Option (List Json)
  json_foses : Option (List Json)
  table_data : Option Table
  deriving Repr

/-- Source `MAG.yield_records`: run the loop on a copy of `self.params`. -/
def yield_records (fetch : Nat → Params → Except String Json) (st : MAGState)
    (fuel : Nat) : RunResult :=
  yieldRecordsAux fetch st.params 0 fuel

/-- Source `MAG.download_publications` (mag.py lines 93-105):
`records = list(self.yield_records())` — an exception raised by the
generator aborts `list(...)`, so no attribute is assigned; on success
`self.json_data` is assigned first, then the tabular projection (whose
`KeyError` would leave `json_data` assigned but `table_data` not).
Returns the updated state plus the escaping exception, `none` when the
run cannot be decided within the given fuel. -/
def download_publications (fetch : Nat → Params → Except String Json)
    (fuel : Nat) (st : MAGState) : Option (MAGState × Option String) :=
  let r := yieldRecordsAux fetch st.params 0 fuel
  match r.ending with
  | .fuelOut => none
  | .errored e => some (st, some e)
  | .done =>
    let st1 := { st with json_data := some (r.records.map Record.raw) }
    match buildTable (r.records.map Record.processed) with
    | .error e => some (st1, some e)
    | .ok t => some ({ st1 with table_data := some t }, none)

/-- Hashability of a decoded JSON value in CPython: lists and dicts are
unhashable, the scalars are hashable. -/
def pyHashable : Json → Bool
  | .arr _ => false
  | .obj _ => false
  | _ => true

/-- One `set.add(x)` of CPython: raises `TypeError` on an unhashable
value, otherwise inserts unless an equal member is already present.
CPython's set iteration order is unspecified, so first-insertion order
stands in for it; no settled claim depends on the order. -/
def setInsert (acc : List Json) (x : Json) : Except String (List Json) :=
  if pyHashable x then
    .ok (if acc.any (fun y => pyEq y x) then acc else acc ++ [x])
  else .error "TypeError"

/-- Inner loop of the set comprehension at mag.py line 113 over one
entity's `"F"` items: evaluate `f["FId"]` and insert it into the set
under construction, left to right, the first failure (a missing key or an
unhashable value at insertion) raising. -/
def uniqueFosesFold (acc : List Json) : List Json → Except String (List Json)
  | [] => .ok acc
  | f :: rest => do
    let fid ← getField "FId" f
    let acc1 ← setInsert acc fid
    uniqueFosesFold acc1 rest

/-- Outer loop of the set comprehension over the downloaded entities:
look up `entity["F"]`, walk its items, carry the set across entities. -/
def uniqueFosesEntities (acc : List Json) : List Json → Except String (List Json)
  | [] => .ok acc
  | entity :: rest => do
    let fv ← getField "F" entity
    let items ←
      match fv with
      | Json.arr l => Except.ok l
      | _ => Except.error "TypeError"
    let acc1 ← uniqueFosesFold acc items
    uniqueFosesEntities acc1 rest

/-- The Python set comprehension
`{f["FId"] for entity in self.json_data for f in entity["F"]}` of
`MAG.fetch_foses` (mag.py line 113): entity by entity and, per entity,
field by field, each produced id inserted into the set as it is
produced — so a failing lookup or an unhashable `FId` raises at its own
position in the iteration. -/
def uniqueFoses (json_data : List Json) : Except String (List Json) :=
  uniqueFosesEntities [] json_data

/-- The loop body result for `data["entities"][0]` inside
`MAG.fetch_foses` (mag.py lines 123-126): `TypeError` is caught and the
iteration skipped; `KeyError` / `IndexError` escape. -/
def fosStep (data : Json) : Except String (Option Json) :=
  match data with
  | .obj kvs =>
    match dget "entities" kvs with
    | none => .error "KeyError"
    | some (.arr []) => .error "IndexError"
    | some (.arr (x :: _)) => .ok (some x)
    | some (.obj _) => .error "KeyError"
    | some (.str s) =>
      match s.data with
      | [] => .error "IndexError"
      | c :: _ => .ok (some (.str (String.mk [c])))
    | some _ => .ok none
  | _ => .ok none

/-- The fetch loop of `MAG.fetch_foses` over the unique field ids:
per id the shared params dict gets `expr = f"And(Id={fid}, Ty='6')"`, the
endpoint is fetched and the first returned entity collected.  Returns the
collected entities, the escaping exception if any, and the number of
fetch calls performed. -/
def fetchFosesLoop (fetch : Nat → Params → Except String Json) (params : Params) :
    Nat → List Json → List Json × Option String × Nat
  | _, [] => ([], none, 0)
  | callIdx, fid :: rest =>
    let p := { params with expr := "And(Id=" ++ pyStr fid ++ ", Ty=\x276\x27)" }
    match fetch callIdx p with
    | .error e => ([], some e, 1)
    | .ok data =>
      match fosStep data with
      | .error e => ([], some e, 1)
      | .ok found =>
        let (fs, err, n) := fetchFosesLoop fetch params (callIdx + 1) rest
        (match found with
         | some f => f :: fs
         | none => fs, err, n + 1)

/-- Source `MAG.fetch_foses` (mag.py lines 107-131): `ValueError` guards on the
instance state, the unique-field-id set comprehension, then the per-id
fetch loop; `self.json_foses` is assigned only after the loop finishes.
Returns the updated state, the result, and the number of fetch calls
performed. -/
def fetch_foses (fetch : Nat → Params → Except String Json) (st : MAGState)
    (attr : String) (count : Int) : MAGState × Except String (List Json) × Nat :=
  match st.json_data with
  | none => (st, .error "ValueError", 0)
  | some jd =>
    match st.json_foses with
    | some _ => (st, .error "ValueError", 0)
    | none =>
      match uniqueFoses jd with
      | .error e => (st, .error e, 0)
      | .ok fids =>
        let base := { st.params with attributes := attr, count := count }
        let (fs, err, n) := fetchFosesLoop fetch base 0 fids
        match err with
        | some e => (st, .error e, n)
        | none => ({ st with json_foses := some fs }, .ok fs, n)

/-- Source `MAG.__init__` with the default `count`/`offset`/`model`/`attr`
arguments (mag.py lines 72-91). -/
def MAG_init (expr key : String) : MAGState :=
  { params :=
      { expr := expr
        offset := 0
        count := 1000
        attributes := "DN,Ti,W,AW,IA,AA.AuId,AA.DAuN,Y,D,DOI,J.JN,PB,F.FId,F.FN"
        model := "latest"
        subscriptionKey := key }
    json_data := none
    json_foses := none
    table_data := none }

/-- A well-formed API response body carrying one entity batch, as used by
fetch stubs: `{"entities": [...]}`. -/
def mkEntities (page : List Json) : Json :=
  .obj [("entities", .arr page)]

/-- A structured inverted index (word, position set) rendered as the JSON
dict `restore_abstract` reads. -/
def encodeIndex (idx : List (String × List Int)) : List (String × Json) :=
  idx.map (fun wp => (wp.1, Json.arr (wp.2.map Json.num)))

/-- The JSON inverted-abstract object
`{"InvertedIndex": ..., "IndexLength": ...}` for a structured index. -/
def mkAbstract (idx : List (String × List Int)) (len : Int) : Json :=
  .obj [("InvertedIndex", .obj (encodeIndex idx)), ("IndexLength", .num len)]

/-- Modelled from the spec wording of the restoration algorithm, for the
refinement comparison with `restore_abstract`: iterate positions
`0 .. length-1` in increasing order; at each position take every word
whose position set contains that position, in index iteration order; join
the collected words with single spaces. -/
def restoreAbstractSpec (idx : List (String × List Int)) (len : Int) : String :=
  String.intercalate " "
    (((List.range len.toNat).map
        (fun p => (idx.filter (fun wp => wp.2.contains (Int.ofNat p))).map Prod.fst)).flatten)

/-- Predicate `hasF e`: the entity is a dict carrying an `"F"` key. -/
def hasF : Json → Bool
  | .obj kvs => dmem "F" kvs
  | _ => false

/-- A downloaded entity whose `"F"` field, when present, is a list of
dicts each carrying a hashable `"FId"` value — the shape `fetch_foses`'s
set comprehension consumes without error (an unhashable `FId` would make
`set.add` raise `TypeError`). -/
def wellFormedFos : Json → Bool
  | .obj kvs =>
    match dget "F" kvs with
    | none => true
    | some (.arr l) =>
      l.all (fun f =>
        match f with
        | Json.obj fkvs =>
          match dget "FId" fkvs with
          | some v => pyHashable v
          | none => false
        | _ => false)
    | some _ => false
  | _ => false


/-! Concrete fetch stubs and instance states used by the closed theorems. -/

/-- A run of five planned pages of one entity each whose third fetch
raises a transport error. -/
def c1Stub : Nat → Params → Except String Json := fun k _ =>
  if k < 2 then .ok (mkEntities [Json.obj [("Ti", Json.str "t")]]) else .error "ConnectionError"

def c1State : MAGState := MAG_init "q" "k"

/-- One page holding a single entity that lacks the `prob` / `logprob`
scoring fields, followed by the empty page. -/
def c4Stub : Nat → Params → Except String Json := fun k _ =>
  if k = 0 then .ok (mkEntities [Json.obj [("Ti", Json.str "x")]]) else .ok (mkEntities [])

/-- A state whose query asks for one entity per page. -/
def wState : MAGState :=
  { params :=
      { expr := "q", offset := 0, count := 1, attributes := "a"
        model := "latest", subscriptionKey := "k" }
    json_data := none
    json_foses := none
    table_data := none }

/-- Two full single-entity pages followed by the empty page. -/
def w2Stub : Nat → Params → Except String Json := fun k _ =>
  .ok (mkEntities (if k < 2 then [Json.obj []] else []))

/-- An endless supply of single-entity pages. -/
def w3Stub : Nat → Params → Except String Json := fun _ _ =>
  .ok (mkEntities [Json.obj []])

/-- Instance state holding one downloaded entity that lacks `"F"`. -/
def w10State : MAGState :=
  { MAG_init "q" "k" with json_data := some [Json.obj [("Ti", Json.str "x")]] }

/-! ## Lemmas about the ordered-dict operations -/

theorem dget_dset_self (k : String) (v : Json) (l : List (String × Json)) :
    dget k (dset k v l) = some v := by
  induction l with
  | nil => simp [dget, dset]
  | cons hd tl ih =>
    obtain ⟨k', v'⟩ := hd
    by_cases h : k' = k
    · simp [dset, h, dget]
    · simp [dset, h, dget] at ih ⊢
      exact ih

theorem dget_dset_ne {k k' : String} (h : k ≠ k') (v : Json) (l : List (String × Json)) :
    dget k (dset k' v l) = dget k l := by
  induction l with
  | nil => simp [dget, dset, Ne.symm h]
  | cons hd tl ih =>
    obtain ⟨k'', v''⟩ := hd
    by_cases h' : k'' = k'
    · subst h'
      simp [dset, dget, Ne.symm h]
    · by_cases h'' : k'' = k
      · subst h''
        simp [dset, h', dget]
      · simp [dset, h', dget, h''] at ih ⊢
        exact ih

theorem dget_ddel_ne {k k' : String} (h : k ≠ k') (l : List (String × Json)) :
    dget k (ddel k' l) = dget k l := by
  induction l with
  | nil => simp [dget, ddel]
  | cons hd tl ih =>
    obtain ⟨k'', v''⟩ := hd
    by_cases h' : k'' = k'
    · subst h'
      simp [ddel, dget, Ne.symm h] at ih ⊢
      exact ih
    · by_cases h'' : k'' = k
      · subst h''
        simp [ddel, h', dget]
      · simp [ddel, h', dget, h''] at ih ⊢
        exact ih

theorem dmem_ddel_self (k : String) (l : List (String × Json)) :
    dmem k (ddel k l) = false := by
  simp [dmem, ddel]

theorem dmem_eq_isSome (k : String) (l : List (String × Json)) :
    dmem k l = (dget k l).isSome := by
  induction l with
  | nil => simp [dmem, dget]
  | cons hd tl ih =>
    obtain ⟨k', v'⟩ := hd
    by_cases h : k' = k
    · simp [dmem, dget, h]
    · have hb : (k' == k) = false := by simp [h]
      simpa [dmem, dget, hb] using ih

/-! ## Inversion lemmas for the four flattening blocks -/

theorem stepIA_ok_iff {kvs kvs' : List (String × Json)} :
    stepIA kvs = .ok kvs' ↔
      (dmem "IA" kvs = false ∧ kvs' = kvs) ∨
      (dmem "IA" kvs = true ∧
        ∃ ra, restore_abstract ((dget "IA" kvs).getD .null) = .ok ra ∧
          kvs' = ddel "IA" (dset "RA" (.str ra) kvs)) := by
  unfold stepIA
  by_cases hm : dmem "IA" kvs
  · cases hra : restore_abstract ((dget "IA" kvs).getD .null) with
    | error e => simp [hm, hra, Except.bind, Except.instMonad, Except.map, Except.pure]
    | ok ra => simp [hm, hra, Except.bind, Except.instMonad, Except.map, Except.pure, eq_comm]
  · simp [hm, eq_comm, pure, Except.pure]

theorem stepAA_ok_iff {kvs kvs' : List (String × Json)} :
    stepAA kvs = .ok kvs' ↔
      (dmem "AA" kvs = false ∧ kvs' = kvs) ∨
      (dmem "AA" kvs = true ∧ ∃ items dn ai,
        (dget "AA" kvs).getD .null = .arr items ∧
        strJoinField "DAuN" items = .ok dn ∧
        pyStrJoinField "AuId" items = .ok ai ∧
        kvs' = ddel "AA" (dset "AuId" (.str ai) (dset "DAuN" (.str dn) kvs))) := by
  unfold stepAA
  by_cases hm : dmem "AA" kvs
  · cases haa : (dget "AA" kvs).getD .null with
    | arr items =>
      cases hdn : strJoinField "DAuN" items with
      | error e => simp [hm, haa, hdn, Except.bind, Except.instMonad, Except.map, Except.pure]
      | ok dn =>
        cases hai : pyStrJoinField "AuId" items with
        | error e => simp [hm, haa, hdn, hai, Except.bind, Except.instMonad, Except.map, Except.pure]
        | ok ai => simp [hm, haa, hdn, hai, Except.bind, Except.instMonad, Except.map, Except.pure, eq_comm]
    | null => simp [hm, haa, Except.bind, Except.instMonad, Except.map, Except.pure]
    | bool b => simp [hm, haa, Except.bind, Except.instMonad, Except.map, Except.pure]
    | num n => simp [hm, haa, Except.bind, Except.instMonad, Except.map, Except.pure]
    | str s => simp [hm, haa, Except.bind, Except.instMonad, Except.map, Except.pure]
    | obj o => simp [hm, haa, Except.bind, Except.instMonad, Except.map, Except.pure]
  · simp [hm, eq_comm, pure, Except.pure]

theorem stepF_ok_iff {kvs kvs' : List (String × Json)} :
    stepF kvs = .ok kvs' ↔
      (dmem "F" kvs = false ∧ kvs' = kvs) ∨
      (dmem "F" kvs = true ∧ ∃ items fn,
        (dget "F" kvs).getD .null = .arr items ∧
        strJoinField "FN" items = .ok fn ∧
        kvs' = ddel "F" (dset "FN" (.str fn) kvs)) := by
  unfold stepF
  by_cases hm : dmem "F" kvs
  · cases hfv : (dget "F" kvs).getD .null with
    | arr items =>
      cases hfn : strJoinField "FN" items with
      | error e => simp [hm, hfv, hfn, Except.bind, Except.instMonad, Except.map, Except.pure]
      | ok fn => simp [hm, hfv, hfn, Except.bind, Except.instMonad, Except.map, Except.pure, eq_comm]
    | null => simp [hm, hfv, Except.bind, Except.instMonad, Except.map, Except.pure]
    | bool b => simp [hm, hfv, Except.bind, Except.instMonad, Except.map, Except.pure]
    | num n => simp [hm, hfv, Except.bind, Except.instMonad, Except.map, Except.pure]
    | str s => simp [hm, hfv, Except.bind, Except.instMonad, Except.map, Except.pure]
    | obj o => simp [hm, hfv, Except.bind, Except.instMonad, Except.map, Except.pure]
  · simp [hm, eq_comm, pure, Except.pure]

theorem stepJ_ok_iff {kvs kvs' : List (String × Json)} :
    stepJ kvs = .ok kvs' ↔
      (dmem "J" kvs = false ∧ kvs' = kvs) ∨
      (dmem "J" kvs = true ∧ ∃ jn,
        jnValue ((dget "J" kvs).getD .null) = .ok jn ∧
        kvs' = ddel "J" (dset "JN" jn kvs)) := by
  unfold stepJ
  by_cases hm : dmem "J" kvs
  · cases hjn : jnValue ((dget "J" kvs).getD .null) with
    | error e => simp [hm, hjn, Except.bind, Except.instMonad, Except.map, Except.pure]
    | ok jn => simp [hm, hjn, Except.bind, Except.instMonad, Except.map, Except.pure, eq_comm]
  · simp [hm, eq_comm, pure, Except.pure]

/-- Function `processEntity` on a dict succeeds exactly through the four-step
chain. -/
theorem processEntity_obj_ok_iff {e0 e4 : List (String × Json)} :
    processEntity (.obj e0) = .ok (.obj e4) ↔
      ∃ e1 e2 e3, stepIA e0 = .ok e1 ∧ stepAA e1 = .ok e2 ∧
        stepF e2 = .ok e3 ∧ stepJ e3 = .ok e4 := by
  unfold processEntity
  cases h1 : stepIA e0 with
  | error e => simp [h1, Except.bind, Except.instMonad, Except.map, Except.pure]
  | ok e1 =>
    cases h2 : stepAA e1 with
    | error e => simp [h1, h2, Except.bind, Except.instMonad, Except.map, Except.pure]
    | ok e2 =>
      cases h3 : stepF e2 with
      | error e => simp [h1, h2, h3, Except.bind, Except.instMonad, Except.map, Except.pure]
      | ok e3 =>
        cases h4 : stepJ e3 with
        | error e => simp [h1, h2, h3, h4, Except.bind, Except.instMonad, Except.map, Except.pure]
        | ok e4' => simp [h1, h2, h3, h4, Except.bind, Except.instMonad, Except.map, Except.pure, eq_comm]

/-! ## Frame lemmas: keys a block does not name keep their values -/

theorem stepIA_frame {kvs kvs' : List (String × Json)} (h : stepIA kvs = .ok kvs')
    {k : String} (h1 : k ≠ "IA") (h2 : k ≠ "RA") : dget k kvs' = dget k kvs := by
  rcases stepIA_ok_iff.mp h with ⟨_, rfl⟩ | ⟨_, ra, _, rfl⟩
  · rfl
  · rw [dget_ddel_ne h1, dget_dset_ne h2]

theorem stepAA_frame {kvs kvs' : List (String × Json)} (h : stepAA kvs = .ok kvs')
    {k : String} (h1 : k ≠ "AA") (h2 : k ≠ "DAuN") (h3 : k ≠ "AuId") :
    dget k kvs' = dget k kvs := by
  rcases stepAA_ok_iff.mp h with ⟨_, rfl⟩ | ⟨_, items, dn, ai, _, _, _, rfl⟩
  · rfl
  · rw [dget_ddel_ne h1, dget_dset_ne h3, dget_dset_ne h2]

theorem stepF_frame {kvs kvs' : List (String × Json)} (h : stepF kvs = .ok kvs')
    {k : String} (h1 : k ≠ "F") (h2 : k ≠ "FN") : dget k kvs' = dget k kvs := by
  rcases stepF_ok_iff.mp h with ⟨_, rfl⟩ | ⟨_, items, fn, _, _, rfl⟩
  · rfl
  · rw [dget_ddel_ne h1, dget_dset_ne h2]

theorem stepJ_frame {kvs kvs' : List (String × Json)} (h : stepJ kvs = .ok kvs')
    {k : String} (h1 : k ≠ "J") (h2 : k ≠ "JN") : dget k kvs' = dget k kvs := by
  rcases stepJ_ok_iff.mp h with ⟨_, rfl⟩ | ⟨_, jn, _, rfl⟩
  · rfl
  · rw [dget_ddel_ne h1, dget_dset_ne h2]

/-! ## C8: which fields the flattener leaves unchanged -/

/-- C8 counterexample: the flattener does not leave every field outside
{IA, AA, F, J} unchanged — an entity carrying both a pre-existing
`"RA"` value and an `"IA"` field has its `"RA"` value overwritten by the
restored abstract (here `"old"` becomes `""`), because
`entity["RA"] = self.restore_abstract(entity["IA"])` writes the derived
key unconditionally. -/
theorem flattener_overwrites_derived_key :
    processEntity (.obj [("RA", .str "old"),
        ("IA", .obj [("InvertedIndex", .obj []), ("IndexLength", .num 0)])]) =
      .ok (.obj [("RA", .str "")]) ∧
    dget "RA" [("RA", Json.str "old"),
        ("IA", .obj [("InvertedIndex", .obj []), ("IndexLength", .num 0)])] =
      some (.str "old") :=
  ⟨rfl, rfl⟩

/-- C8 (amended): the flattener leaves every field outside the four
consumed keys {IA, AA, F, J} *and* the five derived keys
{RA, DAuN, AuId, FN, JN} unchanged; and an entity lacking all of
IA, AA, F and J is returned exactly as it came in. -/
theorem flattener_frame (kvs : List (String × Json)) :
    (∀ kvs', processEntity (.obj kvs) = .ok (.obj kvs') →
      ∀ k : String,
        ¬ k ∈ (["IA", "AA", "F", "J", "RA", "DAuN", "AuId", "FN", "JN"] : List String) →
        dget k kvs' = dget k kvs) ∧
    (dmem "IA" kvs = false → dmem "AA" kvs = false → dmem "F" kvs = false →
      dmem "J" kvs = false → processEntity (.obj kvs) = .ok (.obj kvs)) := by
  constructor
  · intro kvs' h k hk
    simp only [List.mem_cons, List.not_mem_nil, or_false, not_or] at hk
    obtain ⟨hIA, hAA, hF, hJ, hRA, hDAuN, hAuId, hFN, hJN⟩ := hk
    obtain ⟨e1, e2, e3, h1, h2, h3, h4⟩ := processEntity_obj_ok_iff.mp h
    rw [stepJ_frame h4 hJ hJN, stepF_frame h3 hF hFN,
      stepAA_frame h2 hAA hDAuN hAuId, stepIA_frame h1 hIA hRA]
  · intro hIA hAA hF hJ
    simp [processEntity, stepIA, stepAA, stepF, stepJ, hIA, hAA, hF, hJ,
      Except.bind, Except.instMonad, Except.map, Except.pure, pure]

/-- C8 witness: on the entity `{"Ti": "x", "Y": 2020}`, which lacks all of
IA, AA, F and J, the flattener is the identity, and the untouched key
`"Ti"` keeps its value through processing. -/
theorem flattener_frame_witness :
    processEntity (.obj [("Ti", .str "x"), ("Y", .num 2020)]) =
      .ok (.obj [("Ti", .str "x"), ("Y", .num 2020)]) ∧
    dget "Ti" [("Ti", Json.str "x"), ("Y", Json.num 2020)] =
      dget "Ti" [("Ti", Json.str "x"), ("Y", Json.num 2020)] :=
  ⟨(flattener_frame [("Ti", .str "x"), ("Y", .num 2020)]).2 rfl rfl rfl rfl,
   (flattener_frame [("Ti", .str "x"), ("Y", .num 2020)]).1
     [("Ti", .str "x"), ("Y", .num 2020)]
     ((flattener_frame [("Ti", .str "x"), ("Y", .num 2020)]).2 rfl rfl rfl rfl)
     "Ti" (by decide)⟩

/-! ## C5: journal field flattening -/

/-- C5 counterexample: when `"J"` is already a scalar, the field does
*not* pass through with `"J"` kept — the value moves to `"JN"` and the
`del entity["J"]` at mag.py line 186 (which sits after the whole
`if/elif/else`) removes `"J"` in this third case too. -/
theorem journal_scalar_also_removed :
    processEntity (.obj [("J", .str "Nature")]) = .ok (.obj [("JN", .str "Nature")]) ∧
    dmem "J" [("JN", Json.str "Nature")] = false :=
  ⟨rfl, rfl⟩

/-- C5 (amended): for an entity whose journal field is present (the other
three flattening blocks idle): a dict journal yields `JN` = its `"JN"`
value; a list journal yields `JN` = the semicolon-joined names; any other
journal value is copied to `JN` as is; and in **all three** cases the
original `"J"` field is deleted. -/
theorem journal_flattening (kvs : List (String × Json)) (j : Json)
    (hJ : dget "J" kvs = some j)
    (hIA : dmem "IA" kvs = false) (hAA : dmem "AA" kvs = false)
    (hF : dmem "F" kvs = false) :
    (∀ jkvs v, j = .obj jkvs → dget "JN" jkvs = some v →
      processEntity (.obj kvs) = .ok (.obj (ddel "J" (dset "JN" v kvs)))) ∧
    (∀ l s, j = .arr l → strJoinField "JN" l = .ok s →
      processEntity (.obj kvs) = .ok (.obj (ddel "J" (dset "JN" (.str s) kvs)))) ∧
    ((∀ jkvs, j ≠ .obj jkvs) → (∀ l, j ≠ .arr l) →
      processEntity (.obj kvs) = .ok (.obj (ddel "J" (dset "JN" j kvs)))) ∧
    (∀ kvs', processEntity (.obj kvs) = .ok (.obj kvs') → dmem "J" kvs' = false) := by
  have hmJ : dmem "J" kvs = true := by
    rw [dmem_eq_isSome, hJ]
    rfl
  have hgd : (dget "J" kvs).getD .null = j := by rw [hJ]; rfl
  refine ⟨?_, ?_, ?_, ?_⟩
  · intro jkvs v hj hv
    subst hj
    simp [processEntity, stepIA, stepAA, stepF, stepJ, hIA, hAA, hF, hmJ, hgd,
      jnValue, hv, Except.bind, Except.instMonad, Except.map, Except.pure, pure]
  · intro l s hj hs
    subst hj
    simp [processEntity, stepIA, stepAA, stepF, stepJ, hIA, hAA, hF, hmJ, hgd,
      jnValue, hs, Except.bind, Except.instMonad, Except.map, Except.pure, pure]
  · intro hno hna
    have hjn : jnValue j = .ok j := by
      cases j with
      | obj jkvs => exact absurd rfl (hno jkvs)
      | arr l => exact absurd rfl (hna l)
      | null => rfl
      | bool b => rfl
      | num n => rfl
      | str s => rfl
    simp [processEntity, stepIA, stepAA, stepF, stepJ, hIA, hAA, hF, hmJ, hgd,
      hjn, Except.bind, Except.instMonad, Except.map, Except.pure, pure]
  · intro kvs' h
    obtain ⟨e1, e2, e3, h1, h2, h3, h4⟩ := processEntity_obj_ok_iff.mp h
    have hJ3 : dget "J" e3 = some j := by
      rw [stepF_frame h3 (by decide) (by decide),
        stepAA_frame h2 (by decide) (by decide) (by decide),
        stepIA_frame h1 (by decide) (by decide), hJ]
    have hmJ3 : dmem "J" e3 = true := by
      rw [dmem_eq_isSome, hJ3]
      rfl
    rcases stepJ_ok_iff.mp h4 with ⟨hfalse, _⟩ | ⟨_, jn, _, rfl⟩
    · rw [hmJ3] at hfalse
      cases hfalse
    · exact dmem_ddel_self "J" (dset "JN" jn e3)

/-- C5 witness: a dict journal `{"JN": "N"}` on the entity
`{"J": {"JN": "N"}}` is flattened to the scalar `JN` column with `"J"`
removed. -/
theorem journal_flattening_witness :
    processEntity (.obj [("J", .obj [("JN", .str "N")])]) =
      .ok (.obj (ddel "J" (dset "JN" (.str "N") [("J", .obj [("JN", .str "N")])]))) :=
  (journal_flattening [("J", .obj [("JN", .str "N")])] (.obj [("JN", .str "N")])
      rfl rfl rfl rfl).1 [("JN", .str "N")] (.str "N") rfl rfl

/-! ## C9: the raw channel sees the input entities unchanged -/

/-- C9: `process` never alters the entity it was given — the `"raw"`
component of the yielded records is exactly the input sequence (up to the
point where processing stopped on an error): the shallow copy at mag.py
line 168 decouples the processed dict, and all writes and deletes go to
the copy. -/
theorem process_preserves_raw (entities : List Json) :
    (processRun entities).1.map Record.raw =
      entities.take (processRun entities).1.length := by
  induction entities with
  | nil => rfl
  | cons item rest ih =>
    cases h : processEntity item with
    | error e => simp [processRun, h]
    | ok proc => simp [processRun, h, ih]

/-! ## C6 / C7: restore_abstract against its reference description -/

theorem pyEq_num_mem (ps : List Int) (p : Int) :
    (ps.map Json.num).any (fun x => pyEq x (.num p)) = ps.contains p := by
  induction ps with
  | nil => rfl
  | cons a tl ih =>
    simp only [List.map_cons, List.any_cons, ih, List.contains_cons]
    by_cases hpa : a = p
    · subst hpa
      simp [pyEq]
    · have hpa' : ¬ p = a := fun hh => hpa hh.symm
      have h1 : (a == p) = false := by simpa using hpa
      have h2 : (p == a) = false := by simpa using hpa'
      simp [pyEq, h1, h2]

theorem scanWords_encode (p : Int) (idx : List (String × List Int)) :
    scanWords p (encodeIndex idx) =
      .ok ((idx.filter (fun wp => wp.2.contains p)).map Prod.fst) := by
  induction idx with
  | nil => rfl
  | cons wp tl ih =>
    obtain ⟨w, ps⟩ := wp
    simp only [encodeIndex, List.map_cons] at ih ⊢
    simp only [scanWords, posMem, pyEq_num_mem, List.filter_cons]
    rw [ih]
    by_cases hc : p ∈ ps
    · simp [hc, Except.bind, Except.instMonad, Except.map, Except.pure, pure]
    · simp [hc, Except.bind, Except.instMonad, Except.map, Except.pure, pure]

theorem restoreLoop_encode (idx : List (String × List Int)) (ps : List Int) :
    restoreLoop (.obj (encodeIndex idx)) ps =
      .ok ((ps.map
        (fun p => (idx.filter (fun wp => wp.2.contains p)).map Prod.fst)).flatten) := by
  induction ps with
  | nil => rfl
  | cons p rest ih =>
    simp [restoreLoop, scanWords_encode, ih,
      Except.bind, Except.instMonad, Except.map, Except.pure, pure]

theorem restore_abstract_encode (idx : List (String × List Int)) (len : Int) :
    restore_abstract (mkAbstract idx len) =
      .ok (String.intercalate " "
        (((List.range len.toNat).map
          (fun p => (idx.filter (fun wp => wp.2.contains (Int.ofNat p))).map Prod.fst)).flatten)) := by
  simp [restore_abstract, mkAbstract, getField, dget, restoreLoop_encode, List.map_map,
    Except.bind, Except.instMonad, Except.map, Except.pure, pure]
  rfl

/-- C6: on every structured inverted index and length, `restore_abstract`
computes exactly the reference algorithm of the spec: visit positions
`0 .. IndexLength-1` in increasing order, at each position emit every
word whose position set contains it in index iteration order, join with
single spaces — so an unclaimed position contributes nothing and a
position claimed by several words contributes all of them. -/
theorem restore_abstract_matches_spec (idx : List (String × List Int)) (len : Int) :
    restore_abstract (mkAbstract idx len) = .ok (restoreAbstractSpec idx len) := by
  rw [restore_abstract_encode]
  rfl

theorem flatten_of_singletons (f : Nat → List String) :
    ∀ (ws : List String) (s : Nat),
      (∀ i, (hi : i < ws.length) → f (s + i) = [ws.get ⟨i, hi⟩]) →
      ((List.range' s ws.length).map f).flatten = ws := by
  intro ws
  induction ws with
  | nil => intro s _; rfl
  | cons w tl ih =>
    intro s h
    simp only [List.length_cons]
    rw [List.range'_succ]
    simp only [List.map_cons, List.flatten_cons]
    have h0 : f (s + 0) = [(w :: tl).get ⟨0, by simp⟩] := h 0 (by simp)
    rw [Nat.add_zero] at h0
    rw [h0]
    have htl := ih (s + 1) (fun i hi => by
      have hstep := h (i + 1) (by simpa using Nat.succ_lt_succ hi)
      rwa [show s + (i + 1) = s + 1 + i by omega] at hstep)
    simp [htl]

/-- C7: round-trip — when the words of an abstract occupy disjoint
position sets exactly covering `0 .. n-1` (each position claimed by
precisely the word standing there), restoring the inverted form returns
the original text with single-space separation. -/
theorem restore_abstract_roundtrip (ws : List String) (idx : List (String × List Int))
    (h : ∀ i, (hi : i < ws.length) →
      (idx.filter (fun wp => wp.2.contains (Int.ofNat i))).map Prod.fst =
        [ws.get ⟨i, hi⟩]) :
    restore_abstract (mkAbstract idx (ws.length : Int)) =
      .ok (String.intercalate " " ws) := by
  rw [restore_abstract_encode]
  rw [show ((ws.length : Int)).toNat = ws.length from by simp]
  rw [List.range_eq_range']
  rw [flatten_of_singletons _ ws 0 (fun i hi => by simpa using h i hi)]

/-- C7 witness: the two-word abstract `"hello world"` inverted as
`hello ↦ {0}, world ↦ {1}` restores to `"hello world"`. -/
theorem restore_abstract_roundtrip_witness :
    restore_abstract (mkAbstract [("hello", [0]), ("world", [1])] 2) =
      .ok "hello world" :=
  restore_abstract_roundtrip ["hello", "world"] [("hello", [0]), ("world", [1])]
    (by decide)

/-! ## Pagination loop lemmas -/

theorem processRun_length_of_none {l : List Json} (h : (processRun l).2 = none) :
    (processRun l).1.length = l.length := by
  induction l with
  | nil => rfl
  | cons item rest ih =>
    cases hp : processEntity item with
    | error e => simp [processRun, hp] at h
    | ok proc =>
      simp [processRun, hp] at h ⊢
      exact ih h

theorem yieldRecordsAux_calls_offset (fetch : Nat → Params → Except String Json) :
    ∀ (fuel : Nat) (params : Params) (idx k : Nat)
      (hk : k < (yieldRecordsAux fetch params idx fuel).calls.length),
      ((yieldRecordsAux fetch params idx fuel).calls.get ⟨k, hk⟩).offset =
        params.offset + (k : Int) * params.count := by
  intro fuel
  induction fuel with
  | zero =>
    intro params idx k hk
    simp [yieldRecordsAux] at hk
  | succ f ih =>
    intro params idx k
    simp only [yieldRecordsAux]
    cases hs : stepFetch fetch idx params with
    | halt recs oe =>
      cases oe with
      | none =>
        intro hk
        simp at hk
        subst hk
        simp
      | some e =>
        intro hk
        simp at hk
        subst hk
        simp
    | cont recs =>
      cases k with
      | zero =>
        intro hk
        simp
      | succ k' =>
        intro hk
        simp only [List.length_cons] at hk
        have hk' : k' < (yieldRecordsAux fetch
            { params with offset := params.offset + params.count } (idx + 1) f).calls.length :=
          Nat.lt_of_succ_lt_succ hk
        have hoff := ih { params with offset := params.offset + params.count } (idx + 1) k' hk'
        simp only [List.get_cons_succ]
        rw [hoff]
        push_cast
        ring

theorem yieldRecordsAux_pages (fetch : Nat → Params → Except String Json) :
    ∀ (N : Nat) (pgs : Nat → List Json) (params : Params) (idx fuel : Nat),
      N + 1 ≤ fuel →
      (∀ j, j < N → ∀ p, fetch (idx + j) p = .ok (mkEntities (pgs j))) →
      (∀ p, fetch (idx + N) p = .ok (mkEntities [])) →
      (∀ j, j < N → pgs j ≠ [] ∧ (processRun (pgs j)).2 = none) →
      (yieldRecordsAux fetch params idx fuel).records.length =
        ((List.range N).map (fun j => (pgs j).length)).sum ∧
      (yieldRecordsAux fetch params idx fuel).calls.length = N + 1 ∧
      (yieldRecordsAux fetch params idx fuel).ending = .done := by
  intro N
  induction N with
  | zero =>
    intro pgs params idx fuel hfuel hfull hempty hproc
    match fuel, hfuel with
    | f + 1, _ =>
      have he := hempty params
      rw [Nat.add_zero] at he
      simp [yieldRecordsAux, stepFetch, he, extractEntities, mkEntities, dget]
  | succ n ih =>
    intro pgs params idx fuel hfuel hfull hempty hproc
    match fuel, hfuel with
    | f + 1, hfuel =>
      have h0p := hfull 0 (Nat.succ_pos n) params
      rw [Nat.add_zero] at h0p
      obtain ⟨hne, hpr⟩ := hproc 0 (Nat.succ_pos n)
      obtain ⟨x, xs, hx⟩ : ∃ x xs, pgs 0 = x :: xs := by
        cases hcc : pgs 0 with
        | nil => exact absurd hcc hne
        | cons a b => exact ⟨a, b, rfl⟩
      rw [hx] at h0p hpr
      obtain ⟨recs, hrecs⟩ : ∃ recs, processRun (x :: xs) = (recs, none) :=
        ⟨(processRun (x :: xs)).1, by rw [← hpr]⟩
      have hstep : stepFetch fetch idx params = .cont recs := by
        simp only [stepFetch, h0p,
          show extractEntities (mkEntities (x :: xs)) = .ok (.arr (x :: xs)) from rfl, hrecs]
      have hrec := ih (fun j => pgs (j + 1)) { params with offset := params.offset + params.count }
        (idx + 1) f (by omega)
        (fun j hj p => by
          have := hfull (j + 1) (Nat.succ_lt_succ hj) p
          rwa [show idx + (j + 1) = idx + 1 + j by omega] at this)
        (fun p => by
          have := hempty p
          rwa [show idx + (n + 1) = idx + 1 + n by omega] at this)
        (fun j hj => hproc (j + 1) (Nat.succ_lt_succ hj))
      obtain ⟨ihr, ihc, ihe⟩ := hrec
      have hlenr : recs.length = (x :: xs).length := by
        have hh := processRun_length_of_none hpr
        rwa [hrecs] at hh
      simp only [yieldRecordsAux, hstep]
      refine ⟨?_, ?_, ihe⟩
      · simp only [List.length_append, ihr, hlenr]
        rw [List.range_succ_eq_map]
        simp [List.map_map, Function.comp_def, hx]
      · simp [ihc]

/-! ## C2: empty-batch termination -/

/-- C2: against a fetch stub serving `N` full pages of `pageSize`
(`params["count"]`) cleanly-processable entities and then one page with an
empty `entities` array, `yield_records` yields exactly `N × pageSize`
records, ends by the clean `break` on the empty batch, and performs no
fetch call beyond the `N+1` made (none after the empty page). -/
theorem pagination_empty_batch (fetch : Nat → Params → Except String Json)
    (st : MAGState) (N : Nat) (pgs : Nat → List Json) (fuel : Nat)
    (hfuel : N + 1 ≤ fuel)
    (hfull : ∀ j, j < N → ∀ p, fetch j p = .ok (mkEntities (pgs j)))
    (hempty : ∀ p, fetch N p = .ok (mkEntities []))
    (hproc : ∀ j, j < N → (processRun (pgs j)).2 = none)
    (hlen : ∀ j, j < N → (pgs j).length = st.params.count.toNat)
    (hpos : 0 < st.params.count) :
    (yield_records fetch st fuel).records.length = N * st.params.count.toNat ∧
    (yield_records fetch st fuel).ending = .done ∧
    (yield_records fetch st fuel).calls.length = N + 1 := by
  obtain ⟨hr, hc, he⟩ := yieldRecordsAux_pages fetch N pgs st.params 0 fuel hfuel
    (fun j hj p => by simpa using hfull j hj p)
    (fun p => by simpa using hempty p)
    (fun j hj => by
      refine ⟨?_, hproc j hj⟩
      intro hnil
      have hl := hlen j hj
      rw [hnil] at hl
      simp at hl
      omega)
  refine ⟨?_, he, hc⟩
  rw [yield_records] at *
  rw [hr]
  have hmap : (List.range N).map (fun j => (pgs j).length) =
      (List.range N).map (fun _ => st.params.count.toNat) :=
    List.map_congr_left (fun j hj => hlen j (List.mem_range.mp hj))
  rw [hmap]
  simp [List.map_const', List.sum_replicate, smul_eq_mul]

/-- C2 witness: two full pages of one entity each (`count = 1`), then the
empty page: two records, DONE, exactly three fetch calls. -/
theorem pagination_empty_batch_witness :
    (yield_records w2Stub wState 3).records.length = 2 * wState.params.count.toNat ∧
    (yield_records w2Stub wState 3).ending = .done ∧
    (yield_records w2Stub wState 3).calls.length = 2 + 1 :=
  pagination_empty_batch w2Stub wState 2 (fun _ => [Json.obj []]) 3 (by omega)
    (fun j hj p =>
      match j, hj with
      | 0, _ => rfl
      | 1, _ => rfl)
    (fun p => rfl)
    (fun j _ => rfl)
    (fun j _ => rfl)
    (by decide)

/-! ## C3: offset advancement -/

/-- C3: across the fetch calls of one `yield_records` run, the `offset`
request parameter of the k-th call (0-based) equals
`startOffset + k * pageSize`, and consecutive calls differ by exactly
`pageSize` — the loop advances `params["offset"] += params["count"]`
irrespective of how many entities the page actually held. -/
theorem offset_advancement (fetch : Nat → Params → Except String Json)
    (st : MAGState) (fuel : Nat) :
    (∀ k, (hk : k < (yield_records fetch st fuel).calls.length) →
      ((yield_records fetch st fuel).calls.get ⟨k, hk⟩).offset =
        st.params.offset + (k : Int) * st.params.count) ∧
    (∀ k, (hk : k + 1 < (yield_records fetch st fuel).calls.length) →
      ((yield_records fetch st fuel).calls.get ⟨k + 1, hk⟩).offset =
        ((yield_records fetch st fuel).calls.get
          ⟨k, Nat.lt_of_succ_lt hk⟩).offset + st.params.count) := by
  constructor
  · intro k hk
    exact yieldRecordsAux_calls_offset fetch fuel st.params 0 k hk
  · intro k hk
    simp only [yield_records] at hk ⊢
    rw [yieldRecordsAux_calls_offset fetch fuel st.params 0 (k + 1) hk,
      yieldRecordsAux_calls_offset fetch fuel st.params 0 k (Nat.lt_of_succ_lt hk)]
    push_cast
    ring

/-- C3 witness: on an endless one-entity-per-page stub with
`startOffset = 0`, `pageSize = 1`, the second call (k = 1) carries offset
`0 + 1·1` and exceeds the first call's offset by exactly the page size. -/
theorem offset_advancement_witness :
    ((yield_records w3Stub wState 3).calls.get ⟨1, by decide⟩).offset =
      wState.params.offset + (1 : Int) * wState.params.count ∧
    ((yield_records w3Stub wState 3).calls.get ⟨0 + 1, by decide⟩).offset =
      ((yield_records w3Stub wState 3).calls.get ⟨0, by decide⟩).offset +
        wState.params.count :=
  ⟨(offset_advancement w3Stub wState 3).1 1 (by decide),
   (offset_advancement w3Stub wState 3).2 0 (by decide)⟩

/-! ## C1: what a mid-run fetch failure leaves behind -/

/-- C1 counterexample: with five planned single-entity pages whose third
fetch raises, `download_publications` does **not** leave `json_data` /
`table_data` holding pages one and two — `records = list(self.yield_records())`
aborts before any attribute assignment, so both stay `None` (their
pre-call values), even though the generator had already yielded the two
records of pages one and two. -/
theorem download_publications_keeps_state_unset :
    download_publications c1Stub 10 c1State = some (c1State, some "ConnectionError") ∧
    c1State.json_data = none ∧
    c1State.table_data = none ∧
    (yield_records c1Stub c1State 10).records.length = 2 :=
  ⟨rfl, rfl, rfl, rfl⟩

/-- C1 (amended): when a fetch (or processing) exception ends the
pagination run, `download_publications` propagates that exception and
returns the instance state unchanged: `json_data` and `table_data` keep
whatever they held before the call (`None` on a fresh instance); the
records accumulated before the failure are discarded by `list(...)` and
reach only direct consumers of `yield_records`. -/
theorem download_publications_error_state (fetch : Nat → Params → Except String Json)
    (fuel : Nat) (st : MAGState) (e : String)
    (h : (yield_records fetch st fuel).ending = .errored e) :
    download_publications fetch fuel st = some (st, some e) := by
  simp only [yield_records] at h
  simp only [download_publications, h]

/-- C1 witness: the amended statement applied to the concrete failing
run. -/
theorem download_publications_error_state_witness :
    download_publications c1Stub 10 c1State = some (c1State, some "ConnectionError") :=
  download_publications_error_state c1Stub 10 c1State "ConnectionError" rfl

/-! ## C4: the tabular projection's drop and rename -/

/-- C4 counterexample: the two scoring fields are **not** dropped "only
if present" — `DataFrame.drop(["prob", "logprob"], axis=1)` raises
`KeyError` when the columns are absent, so a successfully downloaded
record sequence without them yields no projection: the error escapes
`download_publications` (after `json_data` was already assigned, with
`table_data` still `None`). -/
theorem buildTable_requires_scores :
    buildTable [Json.obj [("Ti", Json.str "x")]] = .error "KeyError" ∧
    download_publications c4Stub 10 c1State =
      some ({ c1State with json_data := some [Json.obj [("Ti", Json.str "x")]] },
        some "KeyError") :=
  ⟨rfl, rfl⟩

/-- C4 (amended): the drop is unconditional; when `"prob"` and
`"logprob"` both occur among the downloaded entities' keys, the
projection succeeds, its columns are exactly the remaining ones renamed
through `MAG.ENTITIES`, and a code the map does not mention survives
unrenamed. -/
theorem buildTable_drop_rename (rows : List Json)
    (hp : "prob" ∈ dfColumns rows) (hl : "logprob" ∈ dfColumns rows) :
    ∃ t, buildTable rows = .ok t ∧
      t.columns = ((dfColumns rows).filter
        (fun c => ¬ (["prob", "logprob"] : List String).contains c)).map
          (lookupRename ENTITIES) ∧
      (∀ c, c ∈ dfColumns rows → c ≠ "prob" → c ≠ "logprob" →
        ENTITIES.find? (fun p => p.1 == c) = none → c ∈ t.columns) := by
  have hall : (["prob", "logprob"] : List String).all
      (fun l => (dfColumns rows).contains l) = true := by
    simp [hp, hl]
  refine ⟨dfRename ENTITIES ⟨(dfColumns rows).filter
      (fun c => ¬ (["prob", "logprob"] : List String).contains c), rows⟩, ?_, rfl, ?_⟩
  · simp only [buildTable, dfDrop, hall, if_true,
      Except.bind, Except.instMonad, Except.map, Except.pure, pure]
  · intro c hc hcp hcl hfind
    simp only [dfRename]
    apply List.mem_map.mpr
    refine ⟨c, ?_, ?_⟩
    · apply List.mem_filter.mpr
      refine ⟨hc, ?_⟩
      simp [hcp, hcl]
    · simp [lookupRename, hfind]

/-- C4 witness: on one entity carrying `Ti`, the scores, and an unmapped
code `Zz`, the projection succeeds with the scores dropped, `Ti` renamed
and `Zz` untouched. -/
theorem buildTable_drop_rename_witness :
    ∃ t, buildTable [Json.obj [("Ti", Json.str "x"), ("prob", Json.num 1),
        ("logprob", Json.num 2), ("Zz", Json.str "y")]] = .ok t ∧
      t.columns = ((dfColumns [Json.obj [("Ti", Json.str "x"), ("prob", Json.num 1),
        ("logprob", Json.num 2), ("Zz", Json.str "y")]]).filter
          (fun c => ¬ (["prob", "logprob"] : List String).contains c)).map
            (lookupRename ENTITIES) ∧
      (∀ c, c ∈ dfColumns [Json.obj [("Ti", Json.str "x"), ("prob", Json.num 1),
          ("logprob", Json.num 2), ("Zz", Json.str "y")]] → c ≠ "prob" → c ≠ "logprob" →
        ENTITIES.find? (fun p => p.1 == c) = none → c ∈ t.columns) :=
  buildTable_drop_rename
    [Json.obj [("Ti", Json.str "x"), ("prob", Json.num 1),
      ("logprob", Json.num 2), ("Zz", Json.str "y")]]
    (by decide) (by decide)

/-! ## C10: fetch_foses is partial on entities lacking "F" -/

/-- Fidelity check at the divergence-prone input: when the first entity
carries a list-valued (unhashable) `FId` and the second lacks `"F"`, the
comprehension fails at the first entity's set insertion with `TypeError`
— as CPython does — and never reaches the later missing-key lookup. -/
theorem uniqueFoses_unhashable_fid :
    uniqueFoses [Json.obj [("F", .arr [.obj [("FId", .arr [])]])],
      Json.obj [("Ti", .str "x")]] = .error "TypeError" := rfl

theorem uniqueFosesFold_ok_of_wf :
    ∀ l : List Json,
      l.all (fun f =>
        match f with
        | Json.obj fkvs =>
          match dget "FId" fkvs with
          | some v => pyHashable v
          | none => false
        | _ => false) = true →
      ∀ acc, ∃ acc1, uniqueFosesFold acc l = .ok acc1 := by
  intro l
  induction l with
  | nil => exact fun _ acc => ⟨acc, rfl⟩
  | cons f tl ih =>
    intro hall acc
    rw [List.all_cons] at hall
    obtain ⟨hf, htl⟩ := Bool.and_eq_true_iff.mp hall
    cases f with
    | obj fkvs =>
      cases hd : dget "FId" fkvs with
      | none =>
        simp only [hd] at hf
        exact Bool.noConfusion hf
      | some v =>
        simp only [hd] at hf
        obtain ⟨acc1, hacc1⟩ :=
          ih htl (if acc.any (fun y => pyEq y v) then acc else acc ++ [v])
        refine ⟨acc1, ?_⟩
        have hg : getField "FId" (Json.obj fkvs) = .ok v := by
          simp only [getField, hd]
        have hins : setInsert acc v =
            .ok (if acc.any (fun y => pyEq y v) then acc else acc ++ [v]) := by
          unfold setInsert
          rw [if_pos hf]
        simp only [uniqueFosesFold, hg, hins,
          Except.bind, Except.instMonad, Except.map, Except.pure, pure]
        exact hacc1
    | null => simp at hf
    | bool b => simp at hf
    | num n => simp at hf
    | str s => simp at hf
    | arr l' => simp at hf

theorem uniqueFosesEntities_keyerror :
    ∀ jd : List Json, ∀ acc : List Json,
      (∀ e ∈ jd, wellFormedFos e = true) → (∃ e ∈ jd, hasF e = false) →
      uniqueFosesEntities acc jd = .error "KeyError" := by
  intro jd
  induction jd with
  | nil =>
    intro acc _ hex
    rcases hex with ⟨e, he, _⟩
    simp at he
  | cons a tl ih =>
    intro acc hwf hex
    have hwfa := hwf a (List.mem_cons_self a tl)
    by_cases hfa : hasF a = true
    · cases a with
      | obj kvs =>
        have hsome : (dget "F" kvs).isSome := by
          rw [← dmem_eq_isSome]
          exact hfa
        obtain ⟨fv, hfv⟩ := Option.isSome_iff_exists.mp hsome
        rw [wellFormedFos, hfv] at hwfa
        cases fv with
        | arr l =>
          obtain ⟨acc1, hacc1⟩ := uniqueFosesFold_ok_of_wf l hwfa acc
          have hex' : ∃ e ∈ tl, hasF e = false := by
            rcases hex with ⟨e, he, hef⟩
            rcases List.mem_cons.mp he with rfl | h'
            · rw [hfa] at hef
              cases hef
            · exact ⟨e, h', hef⟩
          have htl := ih acc1 (fun e he => hwf e (List.mem_cons_of_mem _ he)) hex'
          simp [uniqueFosesEntities, getField, hfv, hacc1, htl,
            Except.bind, Except.instMonad, Except.map, Except.pure, pure]
        | null => simp at hwfa
        | bool b => simp at hwfa
        | num n => simp at hwfa
        | str s => simp at hwfa
        | obj o => simp at hwfa
      | null => simp [hasF] at hfa
      | bool b => simp [hasF] at hfa
      | num n => simp [hasF] at hfa
      | str s => simp [hasF] at hfa
      | arr l => simp [hasF] at hfa
    · cases a with
      | obj kvs =>
        have hfa' : dmem "F" kvs = false := by simpa [hasF] using hfa
        have hnone : dget "F" kvs = none := by
          have hiso := dmem_eq_isSome "F" kvs
          rw [hfa'] at hiso
          cases hd : dget "F" kvs
          · rfl
          · rw [hd] at hiso
            simp at hiso
        simp [uniqueFosesEntities, getField, hnone,
          Except.bind, Except.instMonad, Except.map, Except.pure, pure]
      | null => simp [wellFormedFos] at hwfa
      | bool b => simp [wellFormedFos] at hwfa
      | num n => simp [wellFormedFos] at hwfa
      | str s => simp [wellFormedFos] at hwfa
      | arr l => simp [wellFormedFos] at hwfa

theorem getField_F_ok_hasF {e v : Json} (h : getField "F" e = .ok v) :
    hasF e = true := by
  cases e with
  | obj kvs =>
    rw [hasF, dmem_eq_isSome]
    cases hd : dget "F" kvs with
    | none => simp [getField, hd] at h
    | some fv => rfl
  | null => simp [getField] at h
  | bool b => simp [getField] at h
  | num n => simp [getField] at h
  | str s => simp [getField] at h
  | arr l => simp [getField] at h

theorem uniqueFosesEntities_ok_hasF :
    ∀ jd : List Json, ∀ acc fids : List Json,
      uniqueFosesEntities acc jd = .ok fids → ∀ e ∈ jd, hasF e = true := by
  intro jd
  induction jd with
  | nil =>
    intro acc fids _ e he
    simp at he
  | cons a tl ih =>
    intro acc fids h e he
    cases hga : getField "F" a with
    | error er =>
      simp [uniqueFosesEntities, hga,
        Except.bind, Except.instMonad, Except.map, Except.pure, pure] at h
    | ok fv =>
      cases fv with
      | arr l =>
        cases hacc : uniqueFosesFold acc l with
        | error er =>
          simp [uniqueFosesEntities, hga, hacc,
            Except.bind, Except.instMonad, Except.map, Except.pure, pure] at h
        | ok acc1 =>
          rcases List.mem_cons.mp he with rfl | h'
          · exact getField_F_ok_hasF hga
          · refine ih acc1 fids ?_ e h'
            simpa [uniqueFosesEntities, hga, hacc,
              Except.bind, Except.instMonad, Except.map, Except.pure, pure] using h
      | null =>
        simp [uniqueFosesEntities, hga,
          Except.bind, Except.instMonad, Except.map, Except.pure, pure] at h
      | bool b =>
        simp [uniqueFosesEntities, hga,
          Except.bind, Except.instMonad, Except.map, Except.pure, pure] at h
      | num n =>
        simp [uniqueFosesEntities, hga,
          Except.bind, Except.instMonad, Except.map, Except.pure, pure] at h
      | str s =>
        simp [uniqueFosesEntities, hga,
          Except.bind, Except.instMonad, Except.map, Except.pure, pure] at h
      | obj o =>
        simp [uniqueFosesEntities, hga,
          Except.bind, Except.instMonad, Except.map, Except.pure, pure] at h

/-- C10: the set comprehension
`{f["FId"] for entity in self.json_data for f in entity["F"]}` runs
before any network request, so (state guards passed, the present `"F"`
fields being lists of dicts with hashable `"FId"` values — otherwise an
earlier `TypeError` fires first, still before any request) an entity
lacking `"F"` makes `fetch_foses` raise `KeyError` with zero fetch calls
performed; conversely the per-field fetch loop is reached only when every
downloaded entity carries an `"F"` key. -/
theorem fetch_foses_requires_F (fetch : Nat → Params → Except String Json)
    (st : MAGState) (jd : List Json) (attr : String) (cnt : Int)
    (hjd : st.json_data = some jd) (hjf : st.json_foses = none) :
    ((∀ e ∈ jd, wellFormedFos e = true) → (∃ e ∈ jd, hasF e = false) →
      fetch_foses fetch st attr cnt = (st, .error "KeyError", 0)) ∧
    (∀ fids, uniqueFoses jd = .ok fids → ∀ e ∈ jd, hasF e = true) := by
  constructor
  · intro hwf hex
    have hu : uniqueFoses jd = .error "KeyError" :=
      uniqueFosesEntities_keyerror jd [] hwf hex
    simp [fetch_foses, hjd, hjf, hu]
  · intro fids hok e he
    exact uniqueFosesEntities_ok_hasF jd [] fids hok e he

/-- C10 witness: one downloaded entity `{"Ti": "x"}` without `"F"` — the
call errors with zero fetches made. -/
theorem fetch_foses_requires_F_witness :
    fetch_foses w3Stub w10State "a" 1 = (w10State, .error "KeyError", 0) :=
  (fetch_foses_requires_F w3Stub w10State [Json.obj [("Ti", Json.str "x")]] "a" 1
    rfl rfl).1 (by decide) (by decide)
